import Mathlib

/-!
Shallow embedding of three framework collaborator modules of the touchHLE
emulator: the NSUserDefaults implementation
(src/frameworks/foundation/ns_user_defaults.rs), the UIWindow implementation
(src/frameworks/uikit/ui_view/ui_window.rs) and the CFRunLoop implementation
(src/frameworks/core_foundation/cf_run_loop.rs), together with the pieces of
the object runtime the design document specifies (nil message sends,
reference counting, dictionary semantics) that these modules rely on.

Guest object references (the Rust type id) are modelled as natural numbers,
with 0 standing for the null address nil. Mutable guest dictionaries are
modelled as association lists from string keys to guest references, and the
guest heap as an association list from references to dictionary contents.
Host functions that can fail an assertion or dispatch a message to an
undefined receiver return Option, with none standing for the loud failure.
-/

namespace TouchHLE

/-- Guest object reference, the Rust type id: an address in the emulated
address space. -/
abbrev GuestId := Nat

/-- The null guest reference. -/
def nil : GuestId := 0

/-- Contents of a guest NSMutableDictionary with NSString keys, as an
association list. -/
abbrev Dict := List (String × GuestId)

/-- Lookup in a dictionary. Modelled from the spec: sending objectForKey: to
a dictionary (the NSDictionary implementation is outside these modules)
returns the stored value, or nil when the key is absent. -/
def dictLookup : Dict → String → GuestId
  | [], _ => nil
  | p :: rest, k => if p.1 = k then p.2 else dictLookup rest k

/-- Membership test for a dictionary key. -/
def dictHasKey : Dict → String → Bool
  | [], _ => false
  | p :: rest, k => if p.1 = k then true else dictHasKey rest k

/-- Update of a dictionary. Modelled from the spec: setObject:forKey: on an
NSMutableDictionary replaces an existing binding for the key or adds a new
one. -/
def dictSet : Dict → String → GuestId → Dict
  | [], k, v => [(k, v)]
  | p :: rest, k, v => if p.1 = k then (k, v) :: rest else p :: dictSet rest k v

/-- Bulk update. Modelled from the spec: addEntriesFromDictionary: adds every
entry of the argument to the receiver, replacing entries already present. -/
def addEntries (dst : Dict) (src : Dict) : Dict :=
  src.foldl (fun acc p => dictSet acc p.1 p.2) dst

/-- Well-formedness of a guest dictionary: stored values are never the null
reference (NSDictionary cannot store nil) and keys are not duplicated. -/
def DictWF (d : Dict) : Prop :=
  (∀ p ∈ d, p.2 ≠ nil) ∧ (d.map Prod.fst).Nodup

/-- Guest heap fragment mapping dictionary references to their contents. -/
abbrev Heap := List (GuestId × Dict)

/-- Contents of the dictionary object behind a reference, if any. -/
def heapDict : Heap → GuestId → Option Dict
  | [], _ => none
  | p :: rest, r => if p.1 = r then some p.2 else heapDict rest r

/-- Message send of objectForKey: to a (possibly nil) dictionary reference.
Modelled from the spec: a send to the null address returns the null value
without invoking any method; a send to a live dictionary looks the key up;
a send to a reference that is no dictionary is undefined (none). -/
def msgDictObjectForKey (h : Heap) (d : GuestId) (k : String) : Option GuestId :=
  if d = nil then some nil
  else (heapDict h d).map (fun dd => dictLookup dd k)

/-- Host object backing an NSUserDefaults instance, from the source: three
guest dictionary references, any of which may be nil. -/
structure NSUserDefaultsHostObject where
  global_domain_dict : GuestId
  app_domain_dict : GuestId
  registration_domain_dict : GuestId
deriving DecidableEq

/-- The objectForKey: method from the source: looks the key up in the app
domain dictionary, then the global domain dictionary, then the registration
domain dictionary, returning the first value that is not nil; the final send
goes to the registration domain dictionary even when that is nil. -/
def objectForKey (h : Heap) (ud : NSUserDefaultsHostObject) (key : String) :
    Option GuestId := do
  let res ← msgDictObjectForKey h ud.app_domain_dict key
  if res ≠ nil then
    return res
  let res2 ← msgDictObjectForKey h ud.global_domain_dict key
  if res2 ≠ nil then
    return res2
  msgDictObjectForKey h ud.registration_domain_dict key

/-- Message send of boolValue to a (possibly nil) value. Modelled from the
spec: a send to the null address returns the zero value, false; the
behaviour on a live object is a parameter of the model. -/
def msgBoolValue (bv : GuestId → Option Bool) (v : GuestId) : Option Bool :=
  if v = nil then some false else bv v

/-- The boolForKey: method from the source: sends boolValue to the result of
objectForKey:. -/
def boolForKey (h : Heap) (bv : GuestId → Option Bool)
    (ud : NSUserDefaultsHostObject) (key : String) : Option Bool :=
  (objectForKey h ud key).bind (msgBoolValue bv)

/-- Message send of addEntriesFromDictionary: with a (possibly nil)
dictionary argument. Modelled from the spec: enumerating a nil argument
yields no entries, so nothing is added. -/
def addEntriesFromDictArg (h : Heap) (dst : Dict) (src : GuestId) : Option Dict :=
  if src = nil then some dst
  else (heapDict h src).map (fun s => addEntries dst s)

/-- The dictionaryRepresentation method from the source: starts from a fresh
empty dictionary, adds the registration domain entries when that reference
is not nil, then the global domain entries, then the app domain entries. -/
def dictionaryRepresentation (h : Heap) (ud : NSUserDefaultsHostObject) :
    Option Dict := do
  let d0 : Dict := []
  let d1 ←
    if ud.registration_domain_dict ≠ nil then
      addEntriesFromDictArg h d0 ud.registration_domain_dict
    else
      pure d0
  let d2 ← addEntriesFromDictArg h d1 ud.global_domain_dict
  addEntriesFromDictArg h d2 ud.app_domain_dict

/-- A key is absent from the domain behind a dictionary reference when the
reference is nil or the dictionary behind it does not bind the key. -/
def domainAbsent (h : Heap) (d : GuestId) (k : String) : Prop :=
  d = nil ∨ ∃ dd, heapDict h d = some dd ∧ dictHasKey dd k = false

/-- A key is bound in the domain behind a dictionary reference when the
reference is not nil and the dictionary behind it binds the key. -/
def domainHasKey (h : Heap) (d : GuestId) (k : String) : Bool :=
  if d = nil then false
  else
    match heapDict h d with
    | some dd => dictHasKey dd k
    | none => false

/-- Lookup of an absent key yields the null reference. -/
theorem dictLookup_eq_nil_of_not_hasKey (d : Dict) (k : String)
    (h : dictHasKey d k = false) : dictLookup d k = nil := by
  induction d with
  | nil => rfl
  | cons p rest ih =>
    by_cases hp : p.1 = k
    · simp [dictHasKey, hp] at h
    · simp only [dictHasKey, hp, if_false] at h
      simp [dictLookup, hp, ih h]

/-- Sending objectForKey: to a domain the key is absent from yields nil. -/
theorem msgDictObjectForKey_absent (h : Heap) (d : GuestId) (k : String)
    (ha : domainAbsent h d k) : msgDictObjectForKey h d k = some nil := by
  rcases ha with hnil | ⟨dd, hdd, hk⟩
  · simp [msgDictObjectForKey, hnil]
  · by_cases hdnil : d = nil
    · simp [msgDictObjectForKey, hdnil]
    · simp [msgDictObjectForKey, hdnil, hdd,
        dictLookup_eq_nil_of_not_hasKey dd k hk]

/-- Claim C1: for every NSUserDefaults instance and every key absent from all
three domain dictionaries, objectForKey: returns the null address nil (the
final send going to the possibly nil registration domain dictionary) and
boolForKey: returns false, the zero value a message send to the null
receiver produces. -/
theorem absent_key_gives_nil_and_false (h : Heap) (ud : NSUserDefaultsHostObject)
    (k : String) (bv : GuestId → Option Bool)
    (ha : domainAbsent h ud.app_domain_dict k)
    (hg : domainAbsent h ud.global_domain_dict k)
    (hr : domainAbsent h ud.registration_domain_dict k) :
    objectForKey h ud k = some nil ∧ boolForKey h bv ud k = some false := by
  have h1 := msgDictObjectForKey_absent h ud.app_domain_dict k ha
  have h2 := msgDictObjectForKey_absent h ud.global_domain_dict k hg
  have h3 := msgDictObjectForKey_absent h ud.registration_domain_dict k hr
  have hobj : objectForKey h ud k = some nil := by
    simp [objectForKey, h1, h2, h3]
  exact ⟨hobj, by simp [boolForKey, hobj, msgBoolValue]⟩

/-- Witness for claim C1 at a concrete heap: the app domain is a dictionary
binding only the key present, the other domains are nil, and the key
missing is looked up. -/
theorem absent_key_gives_nil_and_false_witness :
    objectForKey [(1, [("present", 5)])] ⟨0, 1, 0⟩ "missing" = some nil ∧
    boolForKey [(1, [("present", 5)])] (fun _ => some true) ⟨0, 1, 0⟩ "missing" =
      some false :=
  absent_key_gives_nil_and_false [(1, [("present", 5)])] ⟨0, 1, 0⟩ "missing"
    (fun _ => some true)
    (Or.inr ⟨[("present", 5)], by decide, by decide⟩) (Or.inl rfl) (Or.inl rfl)

/-- Keys found by dictHasKey are among the mapped keys. -/
theorem mem_keys_of_hasKey (d : Dict) (k : String) (h : dictHasKey d k = true) :
    k ∈ d.map Prod.fst := by
  induction d with
  | nil => simp [dictHasKey] at h
  | cons p rest ih =>
    by_cases hp : p.1 = k
    · simp [hp]
    · simp only [dictHasKey, hp, if_false] at h
      simp [ih h]

/-- Lookup after a single update. -/
theorem dictLookup_dictSet (d : Dict) (k : String) (v : GuestId) (k' : String) :
    dictLookup (dictSet d k v) k' = if k' = k then v else dictLookup d k' := by
  induction d with
  | nil =>
    by_cases hk : k' = k
    · subst hk
      simp [dictSet, dictLookup]
    · have hkk : k ≠ k' := fun he => hk he.symm
      simp [dictSet, dictLookup, hk, hkk]
  | cons p rest ih =>
    by_cases hp : p.1 = k
    · by_cases hk : k' = k
      · subst hk
        simp [dictSet, dictLookup, hp]
      · have hkk : k ≠ k' := fun he => hk he.symm
        have hpk : p.1 ≠ k' := fun he => hk (hp.symm.trans he).symm
        simp [dictSet, dictLookup, hp, hk, hkk, hpk]
    · by_cases hk : k' = k
      · subst hk
        simp [dictSet, dictLookup, hp, ih]
      · simp [dictSet, dictLookup, hp, hk, ih]

/-- Lookup in a bulk update: entries of the source shadow the destination. -/
theorem dictLookup_addEntries (src : Dict) (dst : Dict) (k : String)
    (hnd : (src.map Prod.fst).Nodup) :
    dictLookup (addEntries dst src) k =
      if dictHasKey src k then dictLookup src k else dictLookup dst k := by
  induction src generalizing dst with
  | nil => simp [addEntries, dictHasKey, dictLookup]
  | cons p rest ih =>
    have hstep : addEntries dst (p :: rest) = addEntries (dictSet dst p.1 p.2) rest := rfl
    have hnd2 : (rest.map Prod.fst).Nodup := (List.nodup_cons.mp hnd).2
    have hpnot : p.1 ∉ rest.map Prod.fst := (List.nodup_cons.mp hnd).1
    rw [hstep, ih _ hnd2]
    by_cases hk : dictHasKey rest k
    · have hpk : p.1 ≠ k := by
        intro he
        exact hpnot (he ▸ mem_keys_of_hasKey rest k hk)
      simp [dictHasKey, dictLookup, hk, hpk]
    · by_cases hpk : p.1 = k
      · simp [dictHasKey, dictLookup, hk, hpk, dictLookup_dictSet]
      · have hkp : k ≠ p.1 := fun he => hpk he.symm
        simp [dictHasKey, dictLookup, hk, hpk, hkp, dictLookup_dictSet]

/-- Lookup of a bound key in a dictionary with non-nil values is not nil. -/
theorem dictLookup_ne_nil_of_hasKey (d : Dict) (k : String)
    (hv : ∀ p ∈ d, p.2 ≠ nil) (hk : dictHasKey d k = true) :
    dictLookup d k ≠ nil := by
  induction d with
  | nil => simp [dictHasKey] at hk
  | cons p rest ih =>
    by_cases hp : p.1 = k
    · simpa [dictLookup, hp] using hv p (by simp)
    · simp only [dictHasKey, hp, if_false] at hk
      have := ih (fun q hq => hv q (List.mem_cons_of_mem p hq)) hk
      simpa [dictLookup, hp] using this

/-- Claim C2: objectForKey: searches the app domain dictionary first, then
the global domain dictionary, then the registration domain dictionary, and
returns the first value that is not nil; for every key bound in at least one
domain this value is not nil and agrees with the dictionary built by
dictionaryRepresentation, which adds the registration entries first, then
the global entries, then the app entries, later additions replacing earlier
ones. -/
theorem objectForKey_matches_dictionaryRepresentation
    (h : Heap) (ud : NSUserDefaultsHostObject) (k : String) (g a : Dict)
    (hgnil : ud.global_domain_dict ≠ nil) (hanil : ud.app_domain_dict ≠ nil)
    (hg : heapDict h ud.global_domain_dict = some g)
    (ha : heapDict h ud.app_domain_dict = some a)
    (hgw : DictWF g) (haw : DictWF a)
    (hreg : ud.registration_domain_dict ≠ nil →
      ∃ r, heapDict h ud.registration_domain_dict = some r ∧ DictWF r)
    (hbound : domainHasKey h ud.app_domain_dict k = true ∨
      domainHasKey h ud.global_domain_dict k = true ∨
      domainHasKey h ud.registration_domain_dict k = true) :
    ∃ rep, dictionaryRepresentation h ud = some rep ∧
      objectForKey h ud k = some (dictLookup rep k) ∧
      dictLookup rep k ≠ nil ∧
      (dictHasKey a k = true → dictLookup rep k = dictLookup a k) ∧
      (dictHasKey a k = false → dictHasKey g k = true →
        dictLookup rep k = dictLookup g k) := by
  by_cases hrnil : ud.registration_domain_dict = nil
  · -- registration domain is nil: the base of the representation is empty
    have hrep : dictionaryRepresentation h ud =
        some (addEntries (addEntries [] g) a) := by
      simp [dictionaryRepresentation, hrnil, addEntriesFromDictArg, hgnil,
        hanil, hg, ha]
    have hlook : dictLookup (addEntries (addEntries [] g) a) k =
        if dictHasKey a k then dictLookup a k
        else if dictHasKey g k then dictLookup g k else nil := by
      rw [dictLookup_addEntries a _ k haw.2, dictLookup_addEntries g _ k hgw.2]
      simp [dictLookup]
    cases hA : dictHasKey a k with
    | true =>
      have hane := dictLookup_ne_nil_of_hasKey a k haw.1 hA
      have hobj : objectForKey h ud k = some (dictLookup a k) := by
        simp [objectForKey, msgDictObjectForKey, hanil, ha, hane]
      refine ⟨_, hrep, ?_, ?_, ?_, ?_⟩
      · rw [hobj, hlook]
        simp [hA]
      · rw [hlook]
        simpa [hA] using hane
      · intro _
        rw [hlook]
        simp [hA]
      · intro hcontra _
        simp [hA] at hcontra
    | false =>
      have ha0 : dictLookup a k = nil := dictLookup_eq_nil_of_not_hasKey a k hA
      cases hG : dictHasKey g k with
      | true =>
        have hgne := dictLookup_ne_nil_of_hasKey g k hgw.1 hG
        have hobj : objectForKey h ud k = some (dictLookup g k) := by
          simp [objectForKey, msgDictObjectForKey, hanil, ha, ha0, hgnil, hg,
            hgne]
        refine ⟨_, hrep, ?_, ?_, ?_, ?_⟩
        · rw [hobj, hlook]
          simp [hA, hG]
        · rw [hlook]
          simpa [hA, hG] using hgne
        · intro hcontra
          simp [hA] at hcontra
        · intro _ _
          rw [hlook]
          simp [hA, hG]
      | false =>
        exfalso
        rcases hbound with hb | hb | hb
        · rw [domainHasKey, if_neg hanil, ha] at hb
          simp [hA] at hb
        · rw [domainHasKey, if_neg hgnil, hg] at hb
          simp [hG] at hb
        · rw [domainHasKey, if_pos hrnil] at hb
          exact Bool.false_ne_true hb
  · -- registration domain is a live dictionary
    obtain ⟨r, hr, hrw⟩ := hreg hrnil
    have hrep : dictionaryRepresentation h ud =
        some (addEntries (addEntries (addEntries [] r) g) a) := by
      simp [dictionaryRepresentation, hrnil, addEntriesFromDictArg, hgnil,
        hanil, hg, ha, hr]
    have hlook : dictLookup (addEntries (addEntries (addEntries [] r) g) a) k =
        if dictHasKey a k then dictLookup a k
        else if dictHasKey g k then dictLookup g k
        else if dictHasKey r k then dictLookup r k else nil := by
      rw [dictLookup_addEntries a _ k haw.2, dictLookup_addEntries g _ k hgw.2,
        dictLookup_addEntries r _ k hrw.2]
      simp [dictLookup]
    cases hA : dictHasKey a k with
    | true =>
      have hane := dictLookup_ne_nil_of_hasKey a k haw.1 hA
      have hobj : objectForKey h ud k = some (dictLookup a k) := by
        simp [objectForKey, msgDictObjectForKey, hanil, ha, hane]
      refine ⟨_, hrep, ?_, ?_, ?_, ?_⟩
      · rw [hobj, hlook]
        simp [hA]
      · rw [hlook]
        simpa [hA] using hane
      · intro _
        rw [hlook]
        simp [hA]
      · intro hcontra _
        simp [hA] at hcontra
    | false =>
      have ha0 : dictLookup a k = nil := dictLookup_eq_nil_of_not_hasKey a k hA
      cases hG : dictHasKey g k with
      | true =>
        have hgne := dictLookup_ne_nil_of_hasKey g k hgw.1 hG
        have hobj : objectForKey h ud k = some (dictLookup g k) := by
          simp [objectForKey, msgDictObjectForKey, hanil, ha, ha0, hgnil, hg,
            hgne]
        refine ⟨_, hrep, ?_, ?_, ?_, ?_⟩
        · rw [hobj, hlook]
          simp [hA, hG]
        · rw [hlook]
          simpa [hA, hG] using hgne
        · intro hcontra
          simp [hA] at hcontra
        · intro _ _
          rw [hlook]
          simp [hA, hG]
      | false =>
        have hg0 : dictLookup g k = nil := dictLookup_eq_nil_of_not_hasKey g k hG
        have hR : dictHasKey r k = true := by
          rcases hbound with hb | hb | hb
          · rw [domainHasKey, if_neg hanil, ha] at hb
            simp [hA] at hb
          · rw [domainHasKey, if_neg hgnil, hg] at hb
            simp [hG] at hb
          · rw [domainHasKey, if_neg hrnil, hr] at hb
            exact hb
        have hrne2 := dictLookup_ne_nil_of_hasKey r k hrw.1 hR
        have hobj : objectForKey h ud k = some (dictLookup r k) := by
          simp [objectForKey, msgDictObjectForKey, hanil, ha, ha0, hgnil, hg,
            hg0, hrnil, hr]
        refine ⟨_, hrep, ?_, ?_, ?_, ?_⟩
        · rw [hobj, hlook]
          simp [hA, hG, hR]
        · rw [hlook]
          simpa [hA, hG, hR] using hrne2
        · intro hcontra
          simp [hA] at hcontra
        · intro _ hcontra
          simp [hG] at hcontra

/-- Witness for claim C2 at a concrete heap: the app domain binds the key k
to 7, the global domain binds it to 8, the registration domain is nil. -/
theorem objectForKey_matches_dictionaryRepresentation_witness :
    ∃ rep,
      dictionaryRepresentation [(1, [("k", 8)]), (2, [("k", 7)])] ⟨1, 2, 0⟩ =
        some rep ∧
      objectForKey [(1, [("k", 8)]), (2, [("k", 7)])] ⟨1, 2, 0⟩ "k" =
        some (dictLookup rep "k") ∧
      dictLookup rep "k" ≠ nil ∧
      (dictHasKey [("k", 7)] "k" = true →
        dictLookup rep "k" = dictLookup [("k", 7)] "k") ∧
      (dictHasKey [("k", 7)] "k" = false → dictHasKey [("k", 8)] "k" = true →
        dictLookup rep "k" = dictLookup [("k", 8)] "k") :=
  objectForKey_matches_dictionaryRepresentation
    [(1, [("k", 8)]), (2, [("k", 7)])] ⟨1, 2, 0⟩ "k" [("k", 8)] [("k", 7)]
    (by decide) (by decide) (by decide) (by decide)
    (by simp [DictWF, nil])
    (by simp [DictWF, nil])
    (fun hcontra => absurd rfl hcontra)
    (Or.inl (by decide))

/-- Per-window view state the UIWindow methods consult: live windows paired
with their hidden flag. Modelled from the spec: the hidden flag lives in the
UIView superclass (outside these modules); isHidden reads it and the
setHidden: superclass call writes it. -/
abbrev WindowHeap := List (GuestId × Bool)

/-- Hidden flag of a live window, none when the reference is not a live
window. -/
def hiddenFlag : WindowHeap → GuestId → Option Bool
  | [], _ => none
  | p :: rest, w => if p.1 = w then some p.2 else hiddenFlag rest w

/-- Write of the hidden flag of a window. -/
def setFlag : WindowHeap → GuestId → Bool → WindowHeap
  | [], w, b => [(w, b)]
  | p :: rest, w, b => if p.1 = w then (w, b) :: rest else p :: setFlag rest w b

/-- Removal of a window record, used when the object is deallocated. -/
def removeWin : WindowHeap → GuestId → WindowHeap
  | [], _ => []
  | p :: rest, w => if p.1 = w then rest else p :: removeWin rest w

/-- First-occurrence removal from the visible list, the effect of the
position plus remove pair in the source. -/
def removeFirst : List GuestId → GuestId → List GuestId
  | [], _ => []
  | x :: rest, w => if x = w then rest else x :: removeFirst rest w

/-- Occurrence count in the visible list. -/
def countOcc : List GuestId → GuestId → Nat
  | [], _ => 0
  | x :: rest, w => (if x = w then 1 else 0) + countOcc rest w

/-- Membership test in the visible list. -/
def containsW : List GuestId → GuestId → Bool
  | [], _ => false
  | x :: rest, w => if x = w then true else containsW rest w

/-- The UIWindow framework state from the source plus the per-window view
state: the non-retaining list of visible windows, the key window, and the
live windows with their hidden flags. -/
structure WindowState where
  visible_windows : List GuestId
  key_window : Option GuestId
  windows : WindowHeap
deriving DecidableEq

/-- The state before any window exists. -/
def WindowState.initial : WindowState := ⟨[], none, []⟩

/-- The initWithFrame: and initWithCoder: methods from the source: the fresh
window is pushed onto the visible list before the superclass init call.
Modelled from the spec: the superclass init registers the view record with
the hidden flag clear; the receiver is a fresh allocation, so a non-fresh
receiver is outside the defined behaviour (none). -/
def stepInit (s : WindowState) (w : GuestId) : Option WindowState :=
  if hiddenFlag s.windows w = none then
    some ⟨s.visible_windows ++ [w], s.key_window, s.windows ++ [(w, false)]⟩
  else none

/-- The setHidden: method from the source: reads the previous flag via
isHidden, forwards to the superclass setter, then removes the window from
the visible list when it becomes hidden (position().unwrap() fails loudly
when it is not there) and pushes it when it becomes visible. -/
def stepSetHidden (s : WindowState) (w : GuestId) (is_hidden : Bool) :
    Option WindowState :=
  match hiddenFlag s.windows w with
  | none => none
  | some was_hidden =>
    if is_hidden && !was_hidden then
      if containsW s.visible_windows w then
        some ⟨removeFirst s.visible_windows w, s.key_window,
              setFlag s.windows w is_hidden⟩
      else none
    else if !is_hidden && was_hidden then
      some ⟨s.visible_windows ++ [w], s.key_window,
            setFlag s.windows w is_hidden⟩
    else
      some ⟨s.visible_windows, s.key_window, setFlag s.windows w is_hidden⟩

/-- The makeKeyAndVisible method from the source: fails an assertion when a
key window is already set, otherwise records the receiver as key window and
sends setHidden:false to it. -/
def stepMakeKeyAndVisible (s : WindowState) (w : GuestId) : Option WindowState :=
  match s.key_window with
  | some _ => none
  | none => stepSetHidden ⟨s.visible_windows, some w, s.windows⟩ w false

/-- The dealloc method from the source: clears the key window when it is the
receiver, removes the receiver from the visible list when it is not hidden
(position().unwrap() fails loudly when it is missing), then the superclass
dealloc returns the record to the memory manager. -/
def stepDealloc (s : WindowState) (w : GuestId) : Option WindowState :=
  match hiddenFlag s.windows w with
  | none => none
  | some hidden =>
    if !hidden then
      if containsW s.visible_windows w then
        some ⟨removeFirst s.visible_windows w,
              if s.key_window = some w then none else s.key_window,
              removeWin s.windows w⟩
      else none
    else
      some ⟨s.visible_windows,
            if s.key_window = some w then none else s.key_window,
            removeWin s.windows w⟩

/-- One UIWindow operation of the claim. -/
inductive WinOp
  | init (w : GuestId)
  | setHidden (w : GuestId) (b : Bool)
  | makeKeyAndVisible (w : GuestId)
  | dealloc (w : GuestId)
deriving DecidableEq

/-- Step of one UIWindow operation. -/
def winStep (s : WindowState) : WinOp → Option WindowState
  | .init w => stepInit s w
  | .setHidden w b => stepSetHidden s w b
  | .makeKeyAndVisible w => stepMakeKeyAndVisible s w
  | .dealloc w => stepDealloc s w

/-- Run of a sequence of UIWindow operations from a given state. -/
def runOpsFrom (s : WindowState) : List WinOp → Option WindowState
  | [] => some s
  | op :: rest =>
    match winStep s op with
    | none => none
    | some s1 => runOpsFrom s1 rest

/-- Run of a sequence of UIWindow operations from the empty state. -/
def runOps (ops : List WinOp) : Option WindowState :=
  runOpsFrom WindowState.initial ops

/-- The visible-list invariant: window records are keyed uniquely, and every
window occurs in the visible list exactly once when it is live and not
hidden, and zero times otherwise. -/
def WinInv (s : WindowState) : Prop :=
  (s.windows.map Prod.fst).Nodup ∧
  ∀ w, countOcc s.visible_windows w =
    (if hiddenFlag s.windows w = some false then 1 else 0)

/-- Flag lookup after a flag write. -/
theorem hiddenFlag_setFlag (l : WindowHeap) (w : GuestId) (b : Bool)
    (w' : GuestId) :
    hiddenFlag (setFlag l w b) w' =
      if w' = w then some b else hiddenFlag l w' := by
  induction l with
  | nil =>
    by_cases hk : w' = w
    · subst hk
      simp [setFlag, hiddenFlag]
    · have hkk : w ≠ w' := fun he => hk he.symm
      simp [setFlag, hiddenFlag, hk, hkk]
  | cons p rest ih =>
    by_cases hp : p.1 = w
    · by_cases hk : w' = w
      · subst hk
        simp [setFlag, hiddenFlag, hp]
      · have hkk : w ≠ w' := fun he => hk he.symm
        have hpk : p.1 ≠ w' := fun he => hk (hp.symm.trans he).symm
        simp [setFlag, hiddenFlag, hp, hk, hkk, hpk]
    · by_cases hk : w' = w
      · subst hk
        simp [setFlag, hiddenFlag, hp, ih]
      · simp [setFlag, hiddenFlag, hp, hk, ih]

/-- A window is missing from the records exactly when its flag lookup is
none. -/
theorem hiddenFlag_eq_none_iff (l : WindowHeap) (w : GuestId) :
    hiddenFlag l w = none ↔ w ∉ l.map Prod.fst := by
  induction l with
  | nil => simp [hiddenFlag]
  | cons p rest ih =>
    by_cases hp : p.1 = w
    · simp [hiddenFlag, hp]
    · have hpk : w ≠ p.1 := fun he => hp he.symm
      simp [hiddenFlag, hp, ih, hpk]

/-- Flag lookup after appending a fresh record. -/
theorem hiddenFlag_append (l : WindowHeap) (w : GuestId) (b : Bool)
    (w' : GuestId) (hnone : hiddenFlag l w' = none ∨ w' ≠ w) :
    hiddenFlag (l ++ [(w, b)]) w' =
      if w' = w then some b else hiddenFlag l w' := by
  induction l with
  | nil =>
    by_cases hk : w' = w
    · subst hk
      simp [hiddenFlag]
    · have hkk : w ≠ w' := fun he => hk he.symm
      simp [hiddenFlag, hk, hkk]
  | cons p rest ih =>
    by_cases hp : p.1 = w'
    · rcases hnone with hn | hn
      · simp [hiddenFlag, hp] at hn
      · have hk : ¬w' = w := hn
        simp [hiddenFlag, hp, hk]
    · have hn2 : hiddenFlag rest w' = none ∨ w' ≠ w := by
        rcases hnone with hn | hn
        · left
          simpa [hiddenFlag, hp] using hn
        · right
          exact hn
      simp [hiddenFlag, hp, ih hn2]

/-- Flag lookup of another window is unchanged by record removal. -/
theorem hiddenFlag_removeWin_ne (l : WindowHeap) (w w' : GuestId)
    (hne : w' ≠ w) : hiddenFlag (removeWin l w) w' = hiddenFlag l w' := by
  induction l with
  | nil => simp [removeWin]
  | cons p rest ih =>
    have hne2 : w ≠ w' := fun he => hne he.symm
    by_cases hp : p.1 = w
    · have hpk : p.1 ≠ w' := fun he => hne (he.symm.trans hp)
      simp [removeWin, hiddenFlag, hp, hpk, ih, hne2]
    · by_cases hpk : p.1 = w'
      · simp [removeWin, hiddenFlag, hp, hpk, hne, ih]
      · simp [removeWin, hiddenFlag, hp, hpk, ih]

/-- The removed record list is a sublist of the original. -/
theorem removeWin_sublist (l : WindowHeap) (w : GuestId) :
    (removeWin l w).Sublist l := by
  induction l with
  | nil => simp [removeWin]
  | cons p rest ih =>
    by_cases hp : p.1 = w
    · simp [removeWin, hp]
    · simpa [removeWin, hp] using ih.cons₂ p

/-- Removal of a uniquely keyed record makes its flag lookup none. -/
theorem hiddenFlag_removeWin_self (l : WindowHeap) (w : GuestId)
    (hnd : (l.map Prod.fst).Nodup) : hiddenFlag (removeWin l w) w = none := by
  induction l with
  | nil => simp [removeWin, hiddenFlag]
  | cons p rest ih =>
    have hnd2 : (rest.map Prod.fst).Nodup := (List.nodup_cons.mp hnd).2
    by_cases hp : p.1 = w
    · rw [removeWin]
      simp only [hp, if_true]
      rw [hiddenFlag_eq_none_iff]
      intro hmem
      exact (List.nodup_cons.mp hnd).1 (hp ▸ hmem)
    · simp [removeWin, hiddenFlag, hp, ih hnd2]

/-- Occurrence counting distributes over append. -/
theorem countOcc_append (l1 l2 : List GuestId) (w : GuestId) :
    countOcc (l1 ++ l2) w = countOcc l1 w + countOcc l2 w := by
  induction l1 with
  | nil => simp [countOcc]
  | cons x rest ih => simp [countOcc, ih, Nat.add_assoc]

/-- Membership in terms of the occurrence count. -/
theorem containsW_iff_countOcc (l : List GuestId) (w : GuestId) :
    containsW l w = true ↔ countOcc l w ≠ 0 := by
  induction l with
  | nil => simp [containsW, countOcc]
  | cons x rest ih =>
    by_cases hx : x = w
    · simp [containsW, countOcc, hx]
    · simp [containsW, countOcc, hx, ih]

/-- First-occurrence removal lowers the count of the removed window by one. -/
theorem countOcc_removeFirst_self (l : List GuestId) (w : GuestId)
    (hc : containsW l w = true) :
    countOcc (removeFirst l w) w = countOcc l w - 1 := by
  induction l with
  | nil => simp [containsW] at hc
  | cons x rest ih =>
    by_cases hx : x = w
    · simp [removeFirst, countOcc, hx]
    · simp only [containsW, hx, if_false] at hc
      simp [removeFirst, countOcc, hx, ih hc]

/-- First-occurrence removal leaves the count of other windows unchanged. -/
theorem countOcc_removeFirst_ne (l : List GuestId) (w w' : GuestId)
    (hne : w' ≠ w) : countOcc (removeFirst l w) w' = countOcc l w' := by
  induction l with
  | nil => simp [removeFirst]
  | cons x rest ih =>
    by_cases hx : x = w
    · have hx2 : x ≠ w' := fun he => hne (he.symm.trans hx)
      have hne2 : w ≠ w' := fun he => hne he.symm
      simp [removeFirst, countOcc, hx, hx2, hne2]
    · simp [removeFirst, countOcc, hx, ih]

/-- Record keys are unchanged by a flag write to a live window. -/
theorem keys_setFlag (l : WindowHeap) (w : GuestId) (b : Bool) (c : Bool)
    (hsome : hiddenFlag l w = some c) :
    (setFlag l w b).map Prod.fst = l.map Prod.fst := by
  induction l with
  | nil => simp [hiddenFlag] at hsome
  | cons p rest ih =>
    by_cases hp : p.1 = w
    · simp [setFlag, hp]
    · simp only [hiddenFlag, hp, if_false] at hsome
      simp [setFlag, hp, ih hsome]

/-- The empty window state satisfies the invariant. -/
theorem winInv_initial : WinInv WindowState.initial := by
  constructor
  · simp [WindowState.initial]
  · intro w
    simp [WindowState.initial, countOcc, hiddenFlag]

/-- Window creation preserves the invariant. -/
theorem winInv_stepInit (s : WindowState) (w : GuestId) (s' : WindowState)
    (hinv : WinInv s) (hstep : stepInit s w = some s') : WinInv s' := by
  obtain ⟨hnd, hcnt⟩ := hinv
  rw [stepInit] at hstep
  by_cases hfresh : hiddenFlag s.windows w = none
  · rw [if_pos hfresh] at hstep
    cases hstep
    have hwnot : w ∉ s.windows.map Prod.fst :=
      (hiddenFlag_eq_none_iff s.windows w).mp hfresh
    constructor
    · rw [List.map_append]
      rw [List.nodup_append]
      refine ⟨hnd, by simp, ?_⟩
      intro x hx hxw
      simp at hxw
      exact hwnot (hxw ▸ hx)
    · intro w'
      by_cases hw : w' = w
      · subst hw
        have h0 := hcnt w'
        rw [hfresh] at h0
        simp at h0
        dsimp only
        rw [countOcc_append, h0,
          hiddenFlag_append s.windows w' false w' (Or.inl hfresh)]
        simp [countOcc]
      · have hw2 : ¬w = w' := fun he => hw he.symm
        dsimp only
        rw [countOcc_append,
          hiddenFlag_append s.windows w false w' (Or.inr hw)]
        simp [countOcc, hw, hw2, hcnt w']
  · rw [if_neg hfresh] at hstep
    cases hstep

/-- The setHidden: method preserves the invariant. -/
theorem winInv_stepSetHidden (s : WindowState) (w : GuestId) (b : Bool)
    (s' : WindowState) (hinv : WinInv s)
    (hstep : stepSetHidden s w b = some s') : WinInv s' := by
  obtain ⟨hnd, hcnt⟩ := hinv
  rw [stepSetHidden] at hstep
  cases hwas : hiddenFlag s.windows w with
  | none =>
    rw [hwas] at hstep
    cases hstep
  | some was =>
    rw [hwas] at hstep
    have hkeys := keys_setFlag s.windows w b was hwas
    have hflag := hiddenFlag_setFlag s.windows w b
    have hnd2 : ((setFlag s.windows w b).map Prod.fst).Nodup := hkeys ▸ hnd
    cases b with
    | true =>
      cases was with
      | false =>
        have hc1 : countOcc s.visible_windows w = 1 := by
          have h0 := hcnt w
          rw [hwas] at h0
          simpa using h0
        have hcw : containsW s.visible_windows w = true := by
          rw [containsW_iff_countOcc, hc1]
          exact one_ne_zero
        simp [hcw] at hstep
        subst hstep
        refine ⟨hnd2, ?_⟩
        intro w'
        by_cases hw : w' = w
        · subst hw
          dsimp only
          rw [countOcc_removeFirst_self _ _ hcw, hc1, hflag w']
          simp
        · dsimp only
          rw [countOcc_removeFirst_ne _ _ _ hw, hflag w', if_neg hw]
          exact hcnt w'
      | true =>
        simp at hstep
        subst hstep
        refine ⟨hnd2, ?_⟩
        intro w'
        by_cases hw : w' = w
        · subst hw
          dsimp only
          rw [hflag w', if_pos rfl]
          have h0 := hcnt w'
          rw [hwas] at h0
          simpa using h0
        · dsimp only
          rw [hflag w', if_neg hw]
          exact hcnt w'
    | false =>
      cases was with
      | true =>
        simp at hstep
        subst hstep
        refine ⟨hnd2, ?_⟩
        intro w'
        by_cases hw : w' = w
        · subst hw
          dsimp only
          have h0 : countOcc s.visible_windows w' = 0 := by
            have h1 := hcnt w'
            rw [hwas] at h1
            simpa using h1
          rw [countOcc_append, h0, hflag w', if_pos rfl]
          simp [countOcc]
        · dsimp only
          rw [countOcc_append, hflag w', if_neg hw]
          simp [countOcc, hw, hcnt w']
          intro he
          exact absurd he.symm hw
      | false =>
        simp at hstep
        subst hstep
        refine ⟨hnd2, ?_⟩
        intro w'
        by_cases hw : w' = w
        · subst hw
          dsimp only
          rw [hflag w', if_pos rfl]
          have h0 := hcnt w'
          rw [hwas] at h0
          simpa using h0
        · dsimp only
          rw [hflag w', if_neg hw]
          exact hcnt w'

/-- The makeKeyAndVisible method preserves the invariant. -/
theorem winInv_stepMakeKeyAndVisible (s : WindowState) (w : GuestId)
    (s' : WindowState) (hinv : WinInv s)
    (hstep : stepMakeKeyAndVisible s w = some s') : WinInv s' := by
  rw [stepMakeKeyAndVisible] at hstep
  cases hkey : s.key_window with
  | some k =>
    rw [hkey] at hstep
    cases hstep
  | none =>
    rw [hkey] at hstep
    dsimp only at hstep
    exact winInv_stepSetHidden ⟨s.visible_windows, some w, s.windows⟩ w false s'
      hinv hstep

/-- The dealloc method preserves the invariant. -/
theorem winInv_stepDealloc (s : WindowState) (w : GuestId) (s' : WindowState)
    (hinv : WinInv s) (hstep : stepDealloc s w = some s') : WinInv s' := by
  obtain ⟨hnd, hcnt⟩ := hinv
  rw [stepDealloc] at hstep
  cases hwas : hiddenFlag s.windows w with
  | none =>
    rw [hwas] at hstep
    cases hstep
  | some hidden =>
    rw [hwas] at hstep
    have hndr : ((removeWin s.windows w).map Prod.fst).Nodup :=
      hnd.sublist ((removeWin_sublist s.windows w).map Prod.fst)
    have hself := hiddenFlag_removeWin_self s.windows w hnd
    cases hidden with
    | true =>
      simp at hstep
      subst hstep
      refine ⟨hndr, ?_⟩
      intro w'
      by_cases hw : w' = w
      · subst hw
        dsimp only
        rw [hself]
        have h0 := hcnt w'
        rw [hwas] at h0
        simpa using h0
      · dsimp only
        rw [hiddenFlag_removeWin_ne _ _ _ hw]
        exact hcnt w'
    | false =>
      have hc1 : countOcc s.visible_windows w = 1 := by
        have h0 := hcnt w
        rw [hwas] at h0
        simpa using h0
      have hcw : containsW s.visible_windows w = true := by
        rw [containsW_iff_countOcc, hc1]
        exact one_ne_zero
      simp [hcw] at hstep
      subst hstep
      refine ⟨hndr, ?_⟩
      intro w'
      by_cases hw : w' = w
      · subst hw
        dsimp only
        rw [hself, countOcc_removeFirst_self _ _ hcw, hc1]
        simp
      · dsimp only
        rw [hiddenFlag_removeWin_ne _ _ _ hw, countOcc_removeFirst_ne _ _ _ hw]
        exact hcnt w'

/-- Any step preserves the invariant. -/
theorem winInv_winStep (s : WindowState) (op : WinOp) (s' : WindowState)
    (hinv : WinInv s) (hstep : winStep s op = some s') : WinInv s' := by
  cases op with
  | init w => exact winInv_stepInit s w s' hinv hstep
  | setHidden w b => exact winInv_stepSetHidden s w b s' hinv hstep
  | makeKeyAndVisible w => exact winInv_stepMakeKeyAndVisible s w s' hinv hstep
  | dealloc w => exact winInv_stepDealloc s w s' hinv hstep

/-- Any successful run preserves the invariant. -/
theorem winInv_runOpsFrom (ops : List WinOp) (s t : WindowState)
    (hinv : WinInv s) (hrun : runOpsFrom s ops = some t) : WinInv t := by
  induction ops generalizing s with
  | nil =>
    rw [runOpsFrom] at hrun
    cases hrun
    exact hinv
  | cons op rest ih =>
    rw [runOpsFrom] at hrun
    cases hstep : winStep s op with
    | none =>
      rw [hstep] at hrun
      cases hrun
    | some s1 =>
      rw [hstep] at hrun
      exact ih s1 (winInv_winStep s op s1 hinv hstep) hrun

/-- The setHidden: method with the current hidden state leaves the visible
list unchanged. -/
theorem stepSetHidden_no_change (s : WindowState) (w : GuestId) (b : Bool)
    (s1 : WindowState) (hflag : hiddenFlag s.windows w = some b)
    (hstep : stepSetHidden s w b = some s1) :
    s1.visible_windows = s.visible_windows := by
  rw [stepSetHidden, hflag] at hstep
  cases b with
  | true =>
    simp at hstep
    subst hstep
    rfl
  | false =>
    simp at hstep
    subst hstep
    rfl

/-- The dealloc method on a hidden window leaves the visible list
unchanged. -/
theorem stepDealloc_hidden_no_change (s : WindowState) (w : GuestId)
    (s1 : WindowState) (hflag : hiddenFlag s.windows w = some true)
    (hstep : stepDealloc s w = some s1) :
    s1.visible_windows = s.visible_windows := by
  rw [stepDealloc, hflag] at hstep
  simp at hstep
  subst hstep
  rfl

/-- The dealloc method on a visible window removes its single occurrence
from the visible list. -/
theorem stepDealloc_visible_removes (s : WindowState) (w : GuestId)
    (s1 : WindowState) (hinv : WinInv s)
    (hflag : hiddenFlag s.windows w = some false)
    (hstep : stepDealloc s w = some s1) :
    s1.visible_windows = removeFirst s.visible_windows w ∧
    countOcc s1.visible_windows w = 0 := by
  obtain ⟨hnd, hcnt⟩ := hinv
  have hc1 : countOcc s.visible_windows w = 1 := by
    have h0 := hcnt w
    rw [hflag] at h0
    simpa using h0
  have hcw : containsW s.visible_windows w = true := by
    rw [containsW_iff_countOcc, hc1]
    exact one_ne_zero
  rw [stepDealloc, hflag] at hstep
  simp [hcw] at hstep
  subst hstep
  refine ⟨rfl, ?_⟩
  dsimp only
  rw [countOcc_removeFirst_self _ _ hcw, hc1]

/-- Claim C3: after every successful sequence of UIWindow operations
(initWithFrame: or initWithCoder:, setHidden:, makeKeyAndVisible, dealloc)
from the empty state, each live window occurs in the visible list exactly
once when it is not hidden and zero times when it is hidden, and dead
references occur zero times; moreover setHidden: with an argument equal to
the current hidden state leaves the visible list unchanged, and dealloc
leaves the visible list unchanged when the window is hidden and removes the
single occurrence of the window when it is visible. -/
theorem ui_window_visible_list_correct (ops : List WinOp) (s : WindowState)
    (hrun : runOps ops = some s) :
    (∀ w hb, hiddenFlag s.windows w = some hb →
      countOcc s.visible_windows w = (if hb then 0 else 1)) ∧
    (∀ w, hiddenFlag s.windows w = none →
      countOcc s.visible_windows w = 0) ∧
    (∀ w b s1, hiddenFlag s.windows w = some b →
      stepSetHidden s w b = some s1 →
      s1.visible_windows = s.visible_windows) ∧
    (∀ w s1, hiddenFlag s.windows w = some true →
      stepDealloc s w = some s1 →
      s1.visible_windows = s.visible_windows) ∧
    (∀ w s1, hiddenFlag s.windows w = some false →
      stepDealloc s w = some s1 →
      s1.visible_windows = removeFirst s.visible_windows w ∧
      countOcc s1.visible_windows w = 0) := by
  have hinv : WinInv s :=
    winInv_runOpsFrom ops WindowState.initial s winInv_initial hrun
  obtain ⟨hnd, hcnt⟩ := hinv
  refine ⟨?_, ?_, ?_, ?_, ?_⟩
  · intro w hb hflag
    have h0 := hcnt w
    rw [hflag] at h0
    cases hb with
    | true => simpa using h0
    | false => simpa using h0
  · intro w hflag
    have h0 := hcnt w
    rw [hflag] at h0
    simpa using h0
  · intro w b s1 hflag hstep
    exact stepSetHidden_no_change s w b s1 hflag hstep
  · intro w s1 hflag hstep
    exact stepDealloc_hidden_no_change s w s1 hflag hstep
  · intro w s1 hflag hstep
    exact stepDealloc_visible_removes s w s1 ⟨hnd, hcnt⟩ hflag hstep

/-- Witness for claim C3 at a concrete run: window 1 is created and made key
and visible, window 2 is created, then hidden. -/
theorem ui_window_visible_list_correct_witness :
    runOps [WinOp.init 1, WinOp.makeKeyAndVisible 1, WinOp.init 2,
        WinOp.setHidden 2 true] =
      some ⟨[1], some 1, [(1, false), (2, true)]⟩ ∧
    countOcc [1] 1 = 1 ∧ countOcc [1] 2 = 0 := by
  refine ⟨by decide, ?_, ?_⟩
  · have h := ui_window_visible_list_correct
      [WinOp.init 1, WinOp.makeKeyAndVisible 1, WinOp.init 2,
        WinOp.setHidden 2 true]
      ⟨[1], some 1, [(1, false), (2, true)]⟩ (by decide)
    simpa using h.1 1 false (by decide)
  · have h := ui_window_visible_list_correct
      [WinOp.init 1, WinOp.makeKeyAndVisible 1, WinOp.init 2,
        WinOp.setHidden 2 true]
      ⟨[1], some 1, [(1, false), (2, true)]⟩ (by decide)
    simpa using h.1 2 true (by decide)

/-- The common-modes string constant from the source. -/
def kCFRunLoopCommonModes : String := "kCFRunLoopCommonModes"

/-- The default-mode string constant from the source. -/
def kCFRunLoopDefaultMode : String := "kCFRunLoopDefaultMode"

/-- Run-loop work driven by CFRunLoopRunInMode: one iteration of a run loop,
or running a run loop until a date the given number of seconds from now. -/
inductive RunLoopEvent
  | singleIteration (runLoop : GuestId)
  | runUntilDate (runLoop : GuestId) (secondsFromNow : Rat)
deriving DecidableEq

/-- The CFRunLoopRunInMode host function from the source: the mode argument
is modelled by the string contents the isEqualToString: sends compare; the
assertion that the mode is the default or common mode failing is none. With
seconds equal to zero, one iteration of the current run loop runs; otherwise
the current run loop runs until a date seconds from now; the function then
returns 1, kCFRunLoopRunFinished. Seconds (CFTimeInterval, a float compared
only against 0.0) is modelled as a rational. -/
def CFRunLoopRunInMode (currentRunLoop : GuestId) (mode : String)
    (seconds : Rat) (_returnAfterSourceHandled : Bool) :
    Option (List RunLoopEvent × Int) :=
  if mode = kCFRunLoopDefaultMode ∨ mode = kCFRunLoopCommonModes then
    some
      ((if seconds = 0 then [RunLoopEvent.singleIteration currentRunLoop]
        else [RunLoopEvent.runUntilDate currentRunLoop seconds]), 1)
  else none

/-- Class table of the object runtime: class name to superclass name.
Modelled from the spec: classes form a single-rooted tree linked by
superclass identity. -/
abbrev ClassTable := List (String × Option String)

/-- Superclass link of a class, if the class is registered. -/
def superOf : ClassTable → String → Option (Option String)
  | [], _ => none
  | p :: rest, c => if p.1 = c then some p.2 else superOf rest c

/-- Fuel-bounded walk up the superclass chain. -/
def isSubclassOfFuel (t : ClassTable) : Nat → String → String → Bool
  | 0, _, _ => false
  | fuel + 1, c, target =>
    if c = target then true
    else
      match superOf t c with
      | some (some sup) => isSubclassOfFuel t fuel sup target
      | _ => false

/-- Modelled from the spec: class_is_subclass_of of the object runtime walks
the class chain from the dynamic class upward; the walk is bounded by the
table size. -/
def class_is_subclass_of (t : ClassTable) (c target : String) : Bool :=
  isSubclassOfFuel t (t.length + 1) c target

/-- The dataForKey: method from the source: looks the key up via
objectForKey:, returns nil for a nil value, and otherwise asserts that the
class of the value exists and is a subclass of NSData before returning the
value; a failed assertion is none. The class-of message is a parameter of
the model. -/
def dataForKey (h : Heap) (classOf : GuestId → Option String) (t : ClassTable)
    (ud : NSUserDefaultsHostObject) (key : String) : Option GuestId := do
  let val ← objectForKey h ud key
  if val = nil then
    return nil
  match classOf val with
  | none => none
  | some c => if class_is_subclass_of t c "NSData" then some val else none

/-- The NSUserDefaults framework state from the source: the memoised
standard defaults instance. -/
structure UDState where
  standard_defaults : Option GuestId
deriving DecidableEq

/-- Object lifecycle events of the standardUserDefaults accessor. -/
inductive UDEvent
  | allocObject (obj : GuestId)
  | initObject (obj : GuestId)
deriving DecidableEq

/-- The standardUserDefaults class method from the source: returns the
memoised instance when one exists, otherwise allocates a fresh instance,
initialises it, memoises it and returns it. The fresh guest address the
allocator would hand out is a parameter; init returns its receiver. -/
def standardUserDefaults (st : UDState) (fresh : GuestId) :
    GuestId × UDState × List UDEvent :=
  match st.standard_defaults with
  | some existing => (existing, st, [])
  | none =>
    (fresh, ⟨some fresh⟩, [UDEvent.allocObject fresh, UDEvent.initObject fresh])

/-- Filesystem effects of the synchronize method. -/
inductive FsEffect
  | createDirAll (path : String)
  | writeFile (path : String) (contents : Dict)
deriving DecidableEq

/-- The preferences directory under the home directory, from the source. -/
def preferencesDir (home : String) : String :=
  home ++ "/Library/Preferences"

/-- The plist path for a bundle identifier, from the source. -/
def plistPath (home bundle_id : String) : String :=
  preferencesDir home ++ "/" ++ bundle_id ++ ".plist"

/-- The synchronize method from the source: creates the preferences
directory, then writes the app domain dictionary, and only it, to the plist
path named after the bundle identifier. Modelled from the spec:
writeToFile:atomically: on a dictionary (outside these modules) writes that
dictionary, and a send to the null receiver is a no-op. -/
def synchronizeEffects (h : Heap) (home bundle_id : String)
    (ud : NSUserDefaultsHostObject) : List FsEffect :=
  FsEffect.createDirAll (preferencesDir home) ::
    (if ud.app_domain_dict = nil then []
     else
       match heapDict h ud.app_domain_dict with
       | some d => [FsEffect.writeFile (plistPath home bundle_id) d]
       | none => [])

/-- In-memory core and framework state rebuilt on each load. -/
structure CoreState where
  ns_user_defaults : UDState
  ui_window : WindowState
deriving DecidableEq

/-- The state every load starts from. -/
def initialCoreState : CoreState := ⟨⟨none⟩, WindowState.initial⟩

/-- Modelled from the spec: none of the core state persists across process
restarts; memory regions, classes and trampolines are rebuilt from the
binary and the registry on each load, so a restart reaches the initial
state whatever the previous in-memory state was. -/
def restart (_old : CoreState) : CoreState := initialCoreState

/-- Reference-counting events of object teardown. -/
inductive RcEvent
  | releaseObj (obj : GuestId)
  | deallocObject (obj : GuestId)
deriving DecidableEq

/-- Occurrence count of an event in a trace. -/
def countEvent : List RcEvent → RcEvent → Nat
  | [], _ => 0
  | e :: rest, t => (if e = t then 1 else 0) + countEvent rest t

/-- The dealloc method of NSUserDefaults from the source: releases the app
domain dictionary, the global domain dictionary and the registration domain
dictionary, in that order, then returns the object record and memory via
dealloc_object. -/
def userDefaultsDeallocEvents (this : GuestId)
    (ud : NSUserDefaultsHostObject) : List RcEvent :=
  [RcEvent.releaseObj ud.app_domain_dict,
   RcEvent.releaseObj ud.global_domain_dict,
   RcEvent.releaseObj ud.registration_domain_dict,
   RcEvent.deallocObject this]

/-- Modelled from the spec: release decrements the reference count, and a
release that drops the count to zero invokes the teardown method, here the
NSUserDefaults dealloc, before the storage is reclaimed. -/
def releaseUserDefaults (count : Nat) (this : GuestId)
    (ud : NSUserDefaultsHostObject) : Nat × List RcEvent :=
  if count = 1 then (0, userDefaultsDeallocEvents this ud)
  else (count - 1, [])

/-- Host constants the registry binds symbols to. -/
inductive HostConstant
  | NSString (value : String)
deriving DecidableEq

/-- The CONSTANTS export list of the run loop module, from the source. -/
def cfRunLoopConstants : List (String × HostConstant) :=
  [("_kCFRunLoopCommonModes", HostConstant.NSString kCFRunLoopCommonModes),
   ("_kCFRunLoopDefaultMode", HostConstant.NSString kCFRunLoopDefaultMode)]

/-- The FUNCTIONS export list of the run loop module, from the source.
Modelled from the spec: the export_c_func macro (outside these modules)
registers a host function under the exact imported symbol name, the C
function name prefixed with one underscore. -/
def cfRunLoopFunctions : List String :=
  ["_CFRunLoopGetCurrent", "_CFRunLoopGetMain", "_CFRunLoopRunInMode"]

/-- Keyboard notification name constant from the source. -/
def UIKeyboardWillShowNotification : String := "UIKeyboardWillShowNotification"

/-- Keyboard notification name constant from the source. -/
def UIKeyboardDidShowNotification : String := "UIKeyboardDidShowNotification"

/-- Keyboard notification name constant from the source. -/
def UIKeyboardWillHideNotification : String := "UIKeyboardWillHideNotification"

/-- Keyboard notification name constant from the source. -/
def UIKeyboardDidHideNotification : String := "UIKeyboardDidHideNotification"

/-- Keyboard bounds user-info key constant from the source. -/
def UIKeyboardBoundsUserInfoKey : String := "UIKeyboardBoundsUserInfoKey"

/-- The CONSTANTS export list of the window module, from the source. -/
def uiWindowConstants : List (String × HostConstant) :=
  [("_UIKeyboardWillShowNotification",
    HostConstant.NSString UIKeyboardWillShowNotification),
   ("_UIKeyboardDidShowNotification",
    HostConstant.NSString UIKeyboardDidShowNotification),
   ("_UIKeyboardWillHideNotification",
    HostConstant.NSString UIKeyboardWillHideNotification),
   ("_UIKeyboardDidHideNotification",
    HostConstant.NSString UIKeyboardDidHideNotification),
   ("_UIKeyboardBoundsUserInfoKey",
    HostConstant.NSString UIKeyboardBoundsUserInfoKey)]

/-- Claim C8: for every call of CFRunLoopRunInMode with an accepted mode,
the run-loop work runs synchronously inside the host call: exactly one
iteration of the current run loop when seconds equals zero, otherwise
running the current run loop until a date seconds in the future, and the
value 1 (kCFRunLoopRunFinished) is returned with that completed work. -/
theorem runInMode_synchronous (cur : GuestId) (mode : String) (s : Rat)
    (r : Bool)
    (hmode : mode = kCFRunLoopDefaultMode ∨ mode = kCFRunLoopCommonModes) :
    (s = 0 → CFRunLoopRunInMode cur mode s r =
      some ([RunLoopEvent.singleIteration cur], 1)) ∧
    (s ≠ 0 → CFRunLoopRunInMode cur mode s r =
      some ([RunLoopEvent.runUntilDate cur s], 1)) := by
  constructor
  · intro hs
    simp [CFRunLoopRunInMode, hmode, hs]
  · intro hs
    simp [CFRunLoopRunInMode, hmode, hs]

/-- Witness for claim C8 at the two accepted modes. -/
theorem runInMode_synchronous_witness :
    CFRunLoopRunInMode 3 kCFRunLoopDefaultMode 0 false =
      some ([RunLoopEvent.singleIteration 3], 1) ∧
    CFRunLoopRunInMode 3 kCFRunLoopCommonModes 2 true =
      some ([RunLoopEvent.runUntilDate 3 2], 1) :=
  ⟨(runInMode_synchronous 3 kCFRunLoopDefaultMode 0 false (Or.inl rfl)).1 rfl,
   (runInMode_synchronous 3 kCFRunLoopCommonModes 2 true (Or.inr rfl)).2
     (by norm_num)⟩

/-- Claim C6: unsupported conditions fail loudly rather than silently:
CFRunLoopRunInMode fails its assertion exactly when the mode string is
neither the default nor the common mode; dataForKey: with a non-nil stored
value fails its assertion exactly when the class of the value is not a
subclass of NSData, and returns the value when it is; makeKeyAndVisible
fails its assertion when a key window is already set and succeeds on a live
window when none is. -/
theorem assertions_fail_loudly (cur : GuestId) (mode : String) (sec : Rat)
    (r : Bool) (h : Heap) (classOf : GuestId → Option String) (t : ClassTable)
    (ud : NSUserDefaultsHostObject) (key : String) (v : GuestId) (c : String)
    (s : WindowState) (w : GuestId)
    (hv : objectForKey h ud key = some v) (hvnil : v ≠ nil)
    (hc : classOf v = some c) :
    (CFRunLoopRunInMode cur mode sec r = none ↔
      (mode ≠ kCFRunLoopDefaultMode ∧ mode ≠ kCFRunLoopCommonModes)) ∧
    (dataForKey h classOf t ud key = none ↔
      class_is_subclass_of t c "NSData" = false) ∧
    (class_is_subclass_of t c "NSData" = true →
      dataForKey h classOf t ud key = some v) ∧
    ((∃ k, s.key_window = some k) → stepMakeKeyAndVisible s w = none) ∧
    (s.key_window = none → hiddenFlag s.windows w ≠ none →
      stepMakeKeyAndVisible s w ≠ none) := by
  refine ⟨?_, ?_, ?_, ?_, ?_⟩
  · by_cases hm : mode = kCFRunLoopDefaultMode ∨ mode = kCFRunLoopCommonModes
    · simp only [CFRunLoopRunInMode, if_pos hm]
      constructor
      · intro hcon
        cases hcon
      · intro hcon
        rcases hm with hm | hm
        · exact absurd hm hcon.1
        · exact absurd hm hcon.2
    · simp only [CFRunLoopRunInMode, if_neg hm]
      constructor
      · intro _
        push_neg at hm
        exact hm
      · intro _
        trivial
  · cases hsub : class_is_subclass_of t c "NSData"
    case false => simp [dataForKey, hv, hvnil, hc, hsub]
    case true => simp [dataForKey, hv, hvnil, hc, hsub]
  · intro hsub
    simp [dataForKey, hv, hvnil, hc, hsub]
  · intro hex
    obtain ⟨k, hk⟩ := hex
    rw [stepMakeKeyAndVisible, hk]
  · intro hkey hlive
    rw [stepMakeKeyAndVisible, hkey]
    cases hflag : hiddenFlag s.windows w with
    | none => exact absurd hflag hlive
    | some was =>
      cases was with
      | true => simp [stepSetHidden, hflag]
      | false => simp [stepSetHidden, hflag]

/-- Witness for claim C6: the stored value 5 has class NSMutableData, a
subclass of NSData, so dataForKey: returns it. -/
theorem assertions_fail_loudly_witness :
    dataForKey [(1, [("k", 5)])]
      (fun o => if o = 5 then some "NSMutableData" else none)
      [("NSMutableData", some "NSData"), ("NSData", some "NSObject"),
        ("NSObject", none)]
      ⟨0, 1, 0⟩ "k" = some 5 :=
  (assertions_fail_loudly 3 kCFRunLoopDefaultMode 0 false
    [(1, [("k", 5)])] (fun o => if o = 5 then some "NSMutableData" else none)
    [("NSMutableData", some "NSData"), ("NSData", some "NSObject"),
      ("NSObject", none)]
    ⟨0, 1, 0⟩ "k" 5 "NSMutableData" ⟨[], none, [(7, false)]⟩ 7
    (by decide) (by decide) (by decide)).2.2.1 (by decide)

/-- Claim C9: standardUserDefaults is idempotent: the first call allocates
and initialises exactly one instance and memoises it, and every later call
returns that same guest address with no further allocation or
initialisation and no state change. -/
theorem standardUserDefaults_idempotent (st : UDState) (fresh fresh2 : GuestId)
    (hnone : st.standard_defaults = none) :
    standardUserDefaults st fresh =
      (fresh, ⟨some fresh⟩,
        [UDEvent.allocObject fresh, UDEvent.initObject fresh]) ∧
    standardUserDefaults (⟨some fresh⟩ : UDState) fresh2 =
      (fresh, ⟨some fresh⟩, []) ∧
    (∀ st2 d f2, st2.standard_defaults = some d →
      standardUserDefaults st2 f2 = (d, st2, [])) := by
  refine ⟨?_, ?_, ?_⟩
  · simp [standardUserDefaults, hnone]
  · simp [standardUserDefaults]
  · intro st2 d f2 hd
    simp [standardUserDefaults, hd]

/-- Witness for claim C9: the instance allocated at address 4 is returned
again by the second call, with no events. -/
theorem standardUserDefaults_idempotent_witness :
    standardUserDefaults ⟨none⟩ 4 =
      (4, ⟨some 4⟩, [UDEvent.allocObject 4, UDEvent.initObject 4]) ∧
    standardUserDefaults ⟨some 4⟩ 8 = (4, ⟨some 4⟩, []) :=
  ⟨(standardUserDefaults_idempotent ⟨none⟩ 4 8 rfl).1,
   (standardUserDefaults_idempotent ⟨none⟩ 4 8 rfl).2.1⟩

/-- Claim C4: no core state persists across a process restart, the rebuilt
state being the initial state; and the only disk write synchronize makes is
the app domain dictionary at the bundle plist path: the effects are
independent of the global and registration domains, and every written
dictionary is the app domain dictionary. -/
theorem only_app_domain_persists :
    (∀ old, restart old = initialCoreState) ∧
    (∀ h home bid a g r g2 r2,
      synchronizeEffects h home bid ⟨g, a, r⟩ =
        synchronizeEffects h home bid ⟨g2, a, r2⟩) ∧
    (∀ h home bid ud p c,
      FsEffect.writeFile p c ∈ synchronizeEffects h home bid ud →
      ud.app_domain_dict ≠ nil ∧ heapDict h ud.app_domain_dict = some c ∧
      p = plistPath home bid) := by
  refine ⟨fun _ => rfl, ?_, ?_⟩
  · intro h home bid a g r g2 r2
    rfl
  · intro h home bid ud p c hmem
    simp only [synchronizeEffects] at hmem
    rcases List.mem_cons.mp hmem with heq | hmem2
    · cases heq
    · by_cases happ : ud.app_domain_dict = nil
      · rw [if_pos happ] at hmem2
        cases hmem2
      · rw [if_neg happ] at hmem2
        cases hd : heapDict h ud.app_domain_dict with
        | none =>
          rw [hd] at hmem2
          cases hmem2
        | some d =>
          rw [hd] at hmem2
          have heq := List.mem_singleton.mp hmem2
          cases heq
          exact ⟨happ, rfl, rfl⟩

/-- Witness for claim C4: the write produced by synchronize on a concrete
heap is the app domain dictionary at the plist path. -/
theorem only_app_domain_persists_witness :
    (⟨0, 1, 0⟩ : NSUserDefaultsHostObject).app_domain_dict ≠ nil ∧
    heapDict [(1, [("k", 5)])]
      (⟨0, 1, 0⟩ : NSUserDefaultsHostObject).app_domain_dict =
      some [("k", 5)] ∧
    plistPath "home" "bundle" = plistPath "home" "bundle" :=
  only_app_domain_persists.2.2 [(1, [("k", 5)])] "home" "bundle" ⟨0, 1, 0⟩
    (plistPath "home" "bundle") [("k", 5)] (by decide)

/-- Claim C5: a release that drops the reference count of an NSUserDefaults
object to zero runs its dealloc before the storage is reclaimed: the event
trace releases the app domain, global domain and registration domain
dictionaries exactly once each, and the record and memory are returned only
afterwards, as the final event. -/
theorem release_to_zero_runs_dealloc (count : Nat) (this : GuestId)
    (ud : NSUserDefaultsHostObject) (hone : count = 1)
    (h1 : ud.app_domain_dict ≠ ud.global_domain_dict)
    (h2 : ud.app_domain_dict ≠ ud.registration_domain_dict)
    (h3 : ud.global_domain_dict ≠ ud.registration_domain_dict) :
    (releaseUserDefaults count this ud).1 = 0 ∧
    (releaseUserDefaults count this ud).2 =
      [RcEvent.releaseObj ud.app_domain_dict,
       RcEvent.releaseObj ud.global_domain_dict,
       RcEvent.releaseObj ud.registration_domain_dict] ++
        [RcEvent.deallocObject this] ∧
    countEvent (releaseUserDefaults count this ud).2
      (RcEvent.releaseObj ud.app_domain_dict) = 1 ∧
    countEvent (releaseUserDefaults count this ud).2
      (RcEvent.releaseObj ud.global_domain_dict) = 1 ∧
    countEvent (releaseUserDefaults count this ud).2
      (RcEvent.releaseObj ud.registration_domain_dict) = 1 ∧
    countEvent (releaseUserDefaults count this ud).2
      (RcEvent.deallocObject this) = 1 ∧
    (releaseUserDefaults count this ud).2.getLast? =
      some (RcEvent.deallocObject this) := by
  subst hone
  refine ⟨rfl, rfl, ?_, ?_, ?_, ?_, rfl⟩ <;>
    simp [releaseUserDefaults, userDefaultsDeallocEvents, countEvent,
      h1, h2, h3, Ne.symm h1, Ne.symm h2, Ne.symm h3]

/-- Witness for claim C5 at a concrete object: the three distinct domain
dictionaries are released, then the object record is reclaimed. -/
theorem release_to_zero_runs_dealloc_witness :
    (releaseUserDefaults 1 9 ⟨2, 1, 3⟩).2 =
      [RcEvent.releaseObj 1, RcEvent.releaseObj 2, RcEvent.releaseObj 3] ++
        [RcEvent.deallocObject 9] :=
  (release_to_zero_runs_dealloc 1 9 ⟨2, 1, 3⟩ rfl (by decide) (by decide)
    (by decide)).2.1

/-- Claim C10: the run loop module binds the two mode symbols to NSString
constants with the matching underscore-stripped values and exports the
three run loop functions under their underscore-prefixed C names, and the
window module binds the five keyboard notification symbols to NSString
constants with the matching underscore-stripped values. -/
theorem registry_exports_exact_symbol_names :
    cfRunLoopConstants =
      [("_kCFRunLoopCommonModes",
        HostConstant.NSString "kCFRunLoopCommonModes"),
       ("_kCFRunLoopDefaultMode",
        HostConstant.NSString "kCFRunLoopDefaultMode")] ∧
    cfRunLoopFunctions =
      ["_CFRunLoopGetCurrent", "_CFRunLoopGetMain", "_CFRunLoopRunInMode"] ∧
    uiWindowConstants =
      [("_UIKeyboardWillShowNotification",
        HostConstant.NSString "UIKeyboardWillShowNotification"),
       ("_UIKeyboardDidShowNotification",
        HostConstant.NSString "UIKeyboardDidShowNotification"),
       ("_UIKeyboardWillHideNotification",
        HostConstant.NSString "UIKeyboardWillHideNotification"),
       ("_UIKeyboardDidHideNotification",
        HostConstant.NSString "UIKeyboardDidHideNotification"),
       ("_UIKeyboardBoundsUserInfoKey",
        HostConstant.NSString "UIKeyboardBoundsUserInfoKey")] ∧
    ((cfRunLoopConstants ++ uiWindowConstants).all fun p =>
      match p.2 with
      | HostConstant.NSString v => p.1 == "_" ++ v) = true := by
  refine ⟨rfl, rfl, rfl, ?_⟩
  decide

end TouchHLE
